import Mathlib

/-!
Verification development for the `lsweb` repository (link extraction and
bounded-concurrency download engine).

The definitions below are a shallow embedding of the Go sources
`pkg/parser/parser.go`, `pkg/downloader/downloader.go` and
`pkg/common/constants.go`.  Pure helpers become Lean functions over
`String` / `List Char`; the stateful download paths become explicit
state-passing functions (sequential mode) and a labelled transition
system (concurrent mode).  Go standard-library URL resolution
(`net/url.Parse` + `ResolveReference`) is kept as an explicit function
parameter `resolve`, instantiated with a concrete model where examples
need it.
-/

namespace LswebModel

/-- `listIsPre p l` is true when `p` is an initial segment of `l`
(model of Go `strings.HasPrefix` over runes). -/
def listIsPre : List Char → List Char → Bool
  | [], _ => true
  | _ :: _, [] => false
  | a :: as, b :: bs => a = b && listIsPre as bs

/-- Model of Go `strings.HasPrefix s pre`. -/
def strStartsWith (s pre : String) : Bool :=
  listIsPre pre.data s.data

/-- `listHasInfix sub l` is true when `sub` occurs contiguously in `l`. -/
def listHasInfix (sub : List Char) : List Char → Bool
  | [] => listIsPre sub []
  | c :: t => listIsPre sub (c :: t) || listHasInfix sub t

/-- Model of Go `strings.Contains s sub`. -/
def strContains (s sub : String) : Bool :=
  listHasInfix sub.data s.data

/-- Characters excluded by the character class `[^\s"']` of the URL
pattern in `parser.go` (RE2 `\s` is space, tab, newline, form feed,
carriage return; then the double and single quote). -/
def isURLStopChar (c : Char) : Bool :=
  c = ' ' || c = '\t' || c = '\n' || c = '\r' ||
  c.toNat = 12 || c.toNat = 34 || c.toNat = 39

/-- A character the URL pattern's body class `[^\s"']` accepts. -/
def isURLBodyChar (c : Char) : Bool := !(isURLStopChar c)

/-- Matches the scheme part `https?://` of the URL pattern at the head of
the character list, returning the consumed characters and the rest.
The `https` alternative is preferred, as in the greedy `s?`. -/
def matchSchemeChars (cs : List Char) : Option (List Char × List Char) :=
  match cs with
  | 'h' :: 't' :: 't' :: 'p' :: 's' :: ':' :: '/' :: '/' :: rest =>
    some (['h', 't', 't', 'p', 's', ':', '/', '/'], rest)
  | 'h' :: 't' :: 't' :: 'p' :: ':' :: '/' :: '/' :: rest =>
    some (['h', 't', 't', 'p', ':', '/', '/'], rest)
  | _ => none

/-- One scan of `regexp.FindAllString` for the pattern
`https?://[^\s"']+`: leftmost scan, each match takes the scheme plus the
maximal non-empty run of body characters, and scanning resumes after the
match (non-overlapping).  `fuel` bounds the recursion; callers pass the
input length, which always suffices since every step consumes at least
one character. -/
def findURLCharsFuel : Nat → List Char → List (List Char)
  | 0, _ => []
  | _ + 1, [] => []
  | fuel + 1, c :: rest =>
    match matchSchemeChars (c :: rest) with
    | some (pre, after) =>
      let body := after.takeWhile isURLBodyChar
      if body.isEmpty then findURLCharsFuel fuel rest
      else (pre ++ body) :: findURLCharsFuel fuel (after.drop body.length)
    | none => findURLCharsFuel fuel rest

/-- Model of `urlPattern.FindAllString(s, -1)` for the pattern
`https?://[^\s"']+` used by the JSON and plain-text branches. -/
def findAllURLs (s : String) : List String :=
  (findURLCharsFuel s.data.length s.data).map List.asString

/-- The visited-set/result-list step shared by every deduplicating loop in
`parser.go`: the pair is (seen set as a list, output list); a string is
appended to both exactly when it was not seen before. -/
def addIfNew (st : List String × List String) (m : String) :
    List String × List String :=
  if m ∈ st.1 then st else (st.1 ++ [m], st.2 ++ [m])

/-- Model of `removeDuplicateLinks` (parser.go lines 200-212): first
occurrence wins, order preserved. -/
def removeDuplicateLinks (links : List String) : List String :=
  (links.foldl addIfNew ([], [])).2

/-- Model of the plain-text branch of `ExtractLinksFromFile`
(parser.go lines 285-297): regex matches over the whole buffer,
deduplicated by the seen-map loop. -/
def extractLinksFromText (content : String) : List String :=
  ((findAllURLs content).foldl addIfNew ([], [])).2

/-- Invariant of the deduplicating loops: the output list has no
duplicates and every output member has been recorded in the seen set. -/
def DedupInv (st : List String × List String) : Prop :=
  st.2.Nodup ∧ ∀ x ∈ st.2, x ∈ st.1

/-- Node kinds of `golang.org/x/net/html.Node` that matter here. -/
inductive NodeType where
  | element
  | text
  | document
  | comment
  | doctype
deriving DecidableEq

/-- One attribute of an HTML node (key/value). -/
structure HtmlAttr where
  key : String
  val : String
deriving DecidableEq

mutual

/-- An `html.Node`: type, tag data, attributes, and the child list.
Children are encoded as a sibling chain, mirroring the
`FirstChild`/`NextSibling` representation the Go traversal walks. -/
inductive HtmlNode where
  | mk (ntype : NodeType) (data : String) (attrs : List HtmlAttr)
      (children : HtmlForest)

/-- A sibling chain of HTML nodes. -/
inductive HtmlForest where
  | fnil
  | fcons (n : HtmlNode) (rest : HtmlForest)

end

/-- Traversal state of `extractLinksFromHTML`: the visited set (Go map
keyed by final URL string), the output links in discovery order, and the
malformed href values. -/
structure ExtractState where
  visited : List String
  links : List String
  malformed : List String
deriving DecidableEq

/-- Processing of one `href` attribute value (parser.go lines 124-146):
parse-and-resolve via `resolve` (the model of `url.Parse` followed by
`baseURL.ResolveReference` and `String()`; `none` models a parse error);
a parse failure is recorded as malformed; a resolved string starting
with `javascript:`, `mailto:` or `#` is skipped; otherwise the string is
added unless already visited. -/
def processHref (resolve : String → Option String) (s : ExtractState)
    (hrefVal : String) : ExtractState :=
  match resolve hrefVal with
  | none => { s with malformed := s.malformed ++ [hrefVal] }
  | some urlStr =>
    if strStartsWith urlStr "javascript:" || strStartsWith urlStr "mailto:" ||
        strStartsWith urlStr "#" then s
    else if urlStr ∈ s.visited then s
    else { s with visited := s.visited ++ [urlStr],
                  links := s.links ++ [urlStr] }

/-- The anchor handling of the traversal: on an element node with tag
`a`, every attribute whose key is `href` is processed in order. -/
def processAnchor (resolve : String → Option String) (ntype : NodeType)
    (data : String) (attrs : List HtmlAttr) (s : ExtractState) : ExtractState :=
  if ntype = NodeType.element ∧ data = "a" then
    attrs.foldl
      (fun st a => if a.key = "href" then processHref resolve st a.val else st) s
  else s

mutual

/-- The recursive DOM walk of `extractLinksFromHTML`: handle the node's
own anchor attributes, then traverse the children in order. -/
def traverseNode (resolve : String → Option String) :
    HtmlNode → ExtractState → ExtractState
  | .mk ntype data attrs children, s =>
    traverseForest resolve children (processAnchor resolve ntype data attrs s)

/-- Walk of a sibling chain (`for c := n.FirstChild; ...`). -/
def traverseForest (resolve : String → Option String) :
    HtmlForest → ExtractState → ExtractState
  | .fnil, s => s
  | .fcons n rest, s => traverseForest resolve rest (traverseNode resolve n s)

end

/-- Model of `extractLinksFromHTML` (parser.go lines 111-158): returns
the link list and the malformed href list. -/
def extractLinksFromHTML (resolve : String → Option String)
    (doc : HtmlNode) : List String × List String :=
  let s := traverseNode resolve doc ⟨[], [], []⟩
  (s.links, s.malformed)

/-- Combined invariant of the HTML traversal state: links are duplicate
free, every link is recorded in the visited set, and no link starts with
one of the filtered prefixes. -/
def HtmlInv (s : ExtractState) : Prop :=
  s.links.Nodup ∧ (∀ x ∈ s.links, x ∈ s.visited) ∧
  ∀ x ∈ s.links,
    strStartsWith x "javascript:" = false ∧ strStartsWith x "mailto:" = false ∧
    strStartsWith x "#" = false

mutual

/-- A decoded JSON value as produced by `json.Unmarshal` into an empty
interface: object, array, string, or any other scalar (number, bool,
null), which the extractor ignores. -/
inductive JsonValue where
  | str (s : String)
  | obj (fields : JsonFields)
  | arr (items : JsonItems)
  | scalar

/-- Key/value fields of a JSON object, in some iteration order. -/
inductive JsonFields where
  | fnil
  | fcons (key : String) (v : JsonValue) (rest : JsonFields)

/-- Elements of a JSON array, in order. -/
inductive JsonItems where
  | inil
  | icons (v : JsonValue) (rest : JsonItems)

end

mutual

/-- The recursive walk of `extractLinksFromJSON` (parser.go lines
161-197): descend into objects and arrays; on a string, take every
regex match and add it to (visited, links) unless already seen. -/
def jsonExtract : JsonValue → List String × List String →
    List String × List String
  | .str s, st => (findAllURLs s).foldl addIfNew st
  | .obj fs, st => jsonExtractFields fs st
  | .arr its, st => jsonExtractItems its st
  | .scalar, st => st

/-- Walk of the values of an object (Go iterates the map's values). -/
def jsonExtractFields : JsonFields → List String × List String →
    List String × List String
  | .fnil, st => st
  | .fcons _ v rest, st => jsonExtractFields rest (jsonExtract v st)

/-- Walk of the elements of an array. -/
def jsonExtractItems : JsonItems → List String × List String →
    List String × List String
  | .inil, st => st
  | .icons v rest, st => jsonExtractItems rest (jsonExtract v st)

end

/-- Model of `extractLinksFromJSON`: the links component of the walk
started from the empty visited set. -/
def extractLinksFromJSON (v : JsonValue) : List String :=
  (jsonExtract v ([], [])).2

/-- The error outcomes of the extraction entry points in `parser.go`. -/
inductive ExtractError where
  | badStatus (code : Nat)
  | unsupportedContentType (ct : String)
  | jsonParseError
  | fileTooLarge (size : Nat)
  | unsupportedFileType
deriving DecidableEq

/-- Rendering of the oversize error of `ExtractLinksFromFile`
(parser.go line 223); the Go message interpolates the size as a float,
modelled here without the number, keeping the fixed text that names the
ceiling. -/
def extractErrorText : ExtractError → String
  | .fileTooLarge _ => "file too large. Maximum size is 10MB"
  | .badStatus _ => "server returned non-success status"
  | .unsupportedContentType _ => "unsupported content type"
  | .jsonParseError => "error parsing JSON"
  | .unsupportedFileType => "unsupported file type"

/-- An HTTP response as seen by `ExtractLinksFromURL`.  The body is kept
in parsed form per branch: `jsonParsed` is the result of
`json.Unmarshal` (`none` on parse error) and `htmlDoc` the tree
`html.Parse` builds (the x/net parser is error tolerant and yields a
tree for any input). -/
structure PageResponse where
  status : Nat
  contentType : String
  jsonParsed : Option JsonValue
  htmlDoc : HtmlNode

/-- Model of `ExtractLinksFromURL` (parser.go lines 20-108) after the
transport succeeded: non-200 statuses are rejected, the content type
must contain one of the four recognised types, JSON content is walked by
the JSON extractor, anything else is parsed as HTML; both branches end
with `removeDuplicateLinks`. -/
def extractLinksFromURL (resolve : String → Option String)
    (resp : PageResponse) : Except ExtractError (List String) :=
  if resp.status ≠ 200 then .error (.badStatus resp.status)
  else if !(strContains resp.contentType "text/html" ||
      strContains resp.contentType "application/json" ||
      strContains resp.contentType "application/xml" ||
      strContains resp.contentType "text/xml") then
    .error (.unsupportedContentType resp.contentType)
  else if strContains resp.contentType "application/json" then
    match resp.jsonParsed with
    | none => .error .jsonParseError
    | some j => .ok (removeDuplicateLinks (extractLinksFromJSON j))
  else
    .ok (removeDuplicateLinks (extractLinksFromHTML resolve resp.htmlDoc).1)

/-- The body of a local file in the form the sniffed branch of
`ExtractLinksFromFile` consumes it: an HTML tree, a JSON parse result, a
plain-text buffer, or an unrecognised content type. -/
inductive FileBody where
  | htmlBody (doc : HtmlNode)
  | jsonBody (parsed : Option JsonValue)
  | plainBody (text : String)
  | otherBody

/-- A local file: its size as reported by `os.Stat`, and its content. -/
structure ModelFile where
  size : Nat
  body : FileBody

/-- Filesystem observations `ExtractLinksFromFile` can make, in order. -/
inductive FsEffect where
  | statEff
  | openEff
  | readEff
deriving DecidableEq

/-- Model of `ExtractLinksFromFile` (parser.go lines 214-303): `os.Stat`
first; a size above 10 MB is rejected at once, so the file is never
opened or read; otherwise the file is opened, read, sniffed, and handled
by the branch its content type selects.  The first component records the
filesystem operations performed. -/
def extractLinksFromFile (resolve : String → Option String)
    (f : ModelFile) : List FsEffect × Except ExtractError (List String) :=
  if f.size > 10 * 1024 * 1024 then
    ([.statEff], .error (.fileTooLarge f.size))
  else
    ([.statEff, .openEff, .readEff],
      match f.body with
      | .htmlBody doc => .ok (extractLinksFromHTML resolve doc).1
      | .jsonBody none => .error .jsonParseError
      | .jsonBody (some j) => .ok (extractLinksFromJSON j)
      | .plainBody t => .ok (extractLinksFromText t)
      | .otherBody => .error .unsupportedFileType)

/-- Error outcomes of the download engine (`downloader.go`). -/
inductive DlError where
  | noURLs
  | requestFailed
  | badStatus (code : Nat)
  | tooLarge (contentLength : Int)
  | alreadyExists (filename : String)
  | createFailed (filename : String)
  | writeFailed (filename : String)
  | invalidRepoURL
  | aggregate (failed total : Nat)
deriving DecidableEq

/-- Model of Go `path/filepath.Base` with separator `/`: empty path
gives `.`, trailing separators are dropped, then everything after the
last separator is taken, and an all-separator path gives `/`. -/
def filepathBase (path : String) : String :=
  if path.data = [] then "."
  else
    let rev := path.data.reverse.dropWhile (fun c => c = '/')
    if rev = [] then "/"
    else ⟨(rev.takeWhile (fun c => c ≠ '/')).reverse⟩

/-- The local directory: named files with their contents. -/
abbrev ModelFS := List (String × List Char)

/-- Model of `os.Stat(name)` succeeding: the name exists. -/
def fsExists (fs : ModelFS) (name : String) : Bool :=
  fs.any (fun e => e.1 = name)

/-- Model of `os.Create` followed by a full successful write: the file's
content is replaced (or the file appears) with the given bytes. -/
def fsWrite (fs : ModelFS) (name : String) (content : List Char) : ModelFS :=
  (name, content) :: fs.filter (fun e => ¬(e.1 = name))

/-- Model of `os.Remove`. -/
def fsRemove (fs : ModelFS) (name : String) : ModelFS :=
  fs.filter (fun e => ¬(e.1 = name))

/-- An HTTP response as seen by the download operations: status code,
the declared content length (Go `int64`, `-1` when unknown) and the
body bytes. -/
structure HttpResponse where
  status : Nat
  contentLength : Int
  body : List Char
deriving DecidableEq

/-- Model of `DownloadFile` (downloader.go lines 155-236).  `resp` is
the transport outcome (`none` models a request/connection error);
`createOk`/`writeOk` model the outcomes of `os.Create` and `io.Copy`.
In source order: non-2xx statuses are rejected; then a declared content
length above `1024*1024*1000` bytes is rejected; then, with overwrite
disabled, an existing file of the derived name is rejected; then the
file is created and the body streamed into it, a failed write removing
the partial file.  The returned pair is (directory after the call,
result). -/
def downloadFile (allowOverwrite : Bool) (url : String)
    (resp : Option HttpResponse) (createOk writeOk : Bool) (fs : ModelFS) :
    ModelFS × Except DlError Unit :=
  match resp with
  | none => (fs, .error .requestFailed)
  | some r =>
    if r.status < 200 ∨ 300 ≤ r.status then (fs, .error (.badStatus r.status))
    else if r.contentLength > 1024 * 1024 * 1000 then
      (fs, .error (.tooLarge r.contentLength))
    else
      let filename := filepathBase url
      if !allowOverwrite && fsExists fs filename then
        (fs, .error (.alreadyExists filename))
      else if !createOk then (fs, .error (.createFailed filename))
      else if writeOk then (fsWrite fs filename r.body, .ok ())
      else (fsRemove (fsWrite fs filename []) filename,
        .error (.writeFailed filename))

/-- The loop body of `DownloadFiles` (downloader.go lines 254-278): one
job per URL with the outcome its `DownloadFile` call produces; the loop
records every attempted URL in order and counts failures, never stopping
early. -/
def downloadFilesLoop : List (String × Bool) → List String → Nat →
    List String × Nat
  | [], attempted, failed => (attempted, failed)
  | (u, ok) :: rest, attempted, failed =>
    downloadFilesLoop rest (attempted ++ [u]) (if ok then failed else failed + 1)

/-- Model of `DownloadFiles` (downloader.go lines 243-287): an empty URL
list is rejected up front; otherwise every URL is attempted in order,
and the call fails with the failed/total counts exactly when some
download failed.  The first component is the list of URLs attempted, in
order.  (The ten-minute overall deadline is real-time behaviour and is
not part of this model.) -/
def downloadFiles (jobs : List (String × Bool)) :
    List String × Except DlError Unit :=
  if jobs.length = 0 then ([], .error .noURLs)
  else
    let (attempted, failed) := downloadFilesLoop jobs [] 0
    (attempted,
      if failed > 0 then .error (.aggregate failed jobs.length) else .ok ())

/-- The failure count of a job list. -/
def failCount (jobs : List (String × Bool)) : Nat :=
  (jobs.filter (fun j => !j.2)).length

/-- The single download performed by one worker of
`DownloadFilesSimultaneously` (downloader.go lines 340-403), after the
filename was chosen: request, status check, `os.Create` of the chosen
name, and the body copy with partial-file cleanup on failure.  There is
no content-length check on this path.  Returns the directory after the
call and the error sent on the error channel, if any. -/
def simWorkerDownload (resp : Option HttpResponse) (createOk writeOk : Bool)
    (filename : String) (fs : ModelFS) : ModelFS × Option DlError :=
  match resp with
  | none => (fs, some .requestFailed)
  | some r =>
    if r.status < 200 ∨ 300 ≤ r.status then (fs, some (.badStatus r.status))
    else if !createOk then (fs, some (.createFailed filename))
    else if writeOk then (fsWrite fs filename r.body, none)
    else (fsRemove (fsWrite fs filename []) filename,
      some (.writeFailed filename))

/-- `splitOnChar sep cs` is Go `strings.Split` for a single-character
separator: the groups between separators, empty groups included;
the empty input yields one empty group. -/
def splitOnChar (sep : Char) : List Char → List (List Char)
  | [] => [[]]
  | c :: rest =>
    let r := splitOnChar sep rest
    if c = sep then [] :: r
    else
      match r with
      | [] => [[c]]
      | g :: gs => (c :: g) :: gs

/-- Go `strings.TrimSuffix cs ".git"` over characters. -/
def trimSuffixGit (cs : List Char) : List Char :=
  if listIsPre ['t', 'i', 'g', '.'] cs.reverse then
    (cs.reverse.drop 4).reverse
  else cs

/-- The owner/repo parse of `FetchGitHubReleases` (downloader.go lines
59-74), applied to the path component of the parsed repository URL: one
leading `/` is trimmed (`strings.TrimPrefix`), the rest is split on `/`,
fewer than two components is an input error, and otherwise the first two
components are taken, a trailing `.git` stripped from the second. -/
def githubParseOwnerRepo (path : List Char) :
    Except DlError (List Char × List Char) :=
  let trimmed := if listIsPre ['/'] path then path.drop 1 else path
  match splitOnChar '/' trimmed with
  | c0 :: c1 :: _ => .ok (c0, trimSuffixGit c1)
  | _ => .error .invalidRepoURL

/-- The spec's reading of the same parse, for comparison: the non-empty
path segments. -/
def specNonEmptySegments (path : List Char) : List (List Char) :=
  (splitOnChar '/' path).filter (fun g => ¬(g = []))

/-- The default value of `maxConcurrentDownloads` (downloader.go line 29). -/
def maxConcurrentDownloadsDefault : Nat := 5

/-- Model of `SetMaxConcurrent` (downloader.go lines 39-43): a
non-positive argument is ignored and the previous ceiling kept. -/
def setMaxConcurrent (current : Nat) (max : Int) : Nat :=
  if max > 0 then max.toNat else current

/-- The numeric-suffix fallback name `base.i`. -/
def suffixName (base : String) (i : Nat) : String :=
  base ++ "." ++ toString i

/-- The unbounded `for i := 1; ; i++` search of
`DownloadFilesSimultaneously` (downloader.go lines 329-335) for a suffix
name not present on disk.  `fuel` makes the recursion structural;
callers pass one more than the number of files on disk, which always
suffices because at most `names.length` candidates can be occupied. -/
def pickSuffixLoop (names : List String) (base : String) : Nat → Nat → String
  | 0, i => suffixName base i
  | fuel + 1, i =>
    if suffixName base i ∈ names then pickSuffixLoop names base fuel (i + 1)
    else suffixName base i

/-- The filename choice a worker makes inside the mutex (downloader.go
lines 322-338): the base name from the URL is kept if overwrite is on or
no file of that name exists; otherwise the first free suffix name is
taken. -/
def pickFilename (overwrite : Bool) (names : List String) (base : String) :
    String :=
  if overwrite then base
  else if base ∈ names then pickSuffixLoop names base (names.length + 1) 1
  else base

/-- The phases one worker goroutine of `DownloadFilesSimultaneously`
moves through.  A worker holds a semaphore ticket from `waitLock`
until it reaches `doneOk`/`doneErr` (the ticket is released by `defer`
on exit), and holds the mutex exactly in phase `locked`. -/
inductive WPhase where
  | ready
  | waitLock
  | locked (filename : String)
  | named (filename : String)
  | writing (filename : String)
  | doneOk (filename : String)
  | doneErr
deriving DecidableEq

/-- The shared state of one run of `DownloadFilesSimultaneously`:
the concurrency ceiling and overwrite flag (snapshotted, read-only),
the URL of each worker, the names existing on disk, the semaphore
occupancy, the mutex holder, and each worker's phase. -/
structure SimState where
  cap : Nat
  overwrite : Bool
  urls : List String
  diskNames : List String
  sem : Nat
  mutexHeld : Option Nat
  workers : List WPhase
deriving DecidableEq

/-- `os.Create` on the name list: creating an existing name truncates
it, leaving the set of names unchanged. -/
def namesCreate (names : List String) (n : String) : List String :=
  if n ∈ names then names else names ++ [n]

/-- The interleaving semantics of `DownloadFilesSimultaneously`
(downloader.go lines 294-425).  Each constructor is one atomic step of
one worker `i`:
* `acquire`: `sem <- struct{}{}` — only when a ticket is free;
* `lock`: `mu.Lock()` plus the existence check and name choice made
  while holding the mutex (lines 322-337);
* `unlock`: `mu.Unlock()` — the chosen name is NOT created yet;
* `httpFail`: the request fails, the status is non-2xx, or `os.Create`
  fails; the worker sends on the error channel and exits, releasing its
  ticket;
* `create`: `os.Create(filename)` — note this happens after `unlock`;
* `finishOk`: the body copy completes and the worker exits;
* `writeFail`: the copy fails, the partial file is removed, and the
  worker exits with an error. -/
inductive SimStep : SimState → SimState → Prop where
  | acquire (s : SimState) (i : Nat)
      (hw : s.workers.get? i = some .ready)
      (hsem : s.sem < s.cap) :
      SimStep s { s with workers := s.workers.set i .waitLock,
                         sem := s.sem + 1 }
  | lock (s : SimState) (i : Nat) (u : String)
      (hw : s.workers.get? i = some .waitLock)
      (hu : s.urls.get? i = some u)
      (hm : s.mutexHeld = none) :
      SimStep s { s with
        workers := s.workers.set i
          (.locked (pickFilename s.overwrite s.diskNames (filepathBase u))),
        mutexHeld := some i }
  | unlock (s : SimState) (i : Nat) (n : String)
      (hw : s.workers.get? i = some (.locked n))
      (hm : s.mutexHeld = some i) :
      SimStep s { s with workers := s.workers.set i (.named n),
                         mutexHeld := none }
  | httpFail (s : SimState) (i : Nat) (n : String)
      (hw : s.workers.get? i = some (.named n)) :
      SimStep s { s with workers := s.workers.set i .doneErr,
                         sem := s.sem - 1 }
  | create (s : SimState) (i : Nat) (n : String)
      (hw : s.workers.get? i = some (.named n)) :
      SimStep s { s with workers := s.workers.set i (.writing n),
                         diskNames := namesCreate s.diskNames n }
  | finishOk (s : SimState) (i : Nat) (n : String)
      (hw : s.workers.get? i = some (.writing n)) :
      SimStep s { s with workers := s.workers.set i (.doneOk n),
                         sem := s.sem - 1 }
  | writeFail (s : SimState) (i : Nat) (n : String)
      (hw : s.workers.get? i = some (.writing n)) :
      SimStep s { s with workers := s.workers.set i .doneErr,
                         diskNames := s.diskNames.erase n,
                         sem := s.sem - 1 }

/-- A worker in one of these phases has acquired its semaphore ticket
and not yet released it: its download is in flight. -/
def isInFlight : WPhase → Bool
  | .waitLock => true
  | .locked _ => true
  | .named _ => true
  | .writing _ => true
  | _ => false

/-- The number of downloads in flight. -/
def inFlight (s : SimState) : Nat :=
  s.workers.countP isInFlight

/-- The state in which `DownloadFilesSimultaneously` starts its workers:
one goroutine per URL, none yet holding a ticket, mutex free. -/
def simInit (cap : Nat) (overwrite : Bool) (diskNames : List String)
    (urls : List String) : SimState :=
  { cap := cap, overwrite := overwrite, urls := urls,
    diskNames := diskNames, sem := 0, mutexHeld := none,
    workers := urls.map (fun _ => WPhase.ready) }

/-- The entry of `DownloadFilesSimultaneously` (downloader.go lines
294-301): an empty URL list is rejected before the semaphore, channels
or any goroutine exist; otherwise the worker system starts. -/
def downloadFilesSimultaneously (cap : Nat) (overwrite : Bool)
    (diskNames : List String) (urls : List String) :
    Except DlError SimState :=
  if urls.length = 0 then .error .noURLs
  else .ok (simInit cap overwrite diskNames urls)

/-- The semaphore invariant of the concurrent engine: the occupancy of
the semaphore equals the number of in-flight downloads and never
exceeds the ceiling, which itself never changes during the batch. -/
def SemInv (c : Nat) (s : SimState) : Prop :=
  s.sem = inFlight s ∧ s.sem ≤ s.cap ∧ s.cap = c

/-- A model of `url.Parse` + `resp.Request.URL.ResolveReference` +
`String()` against the base URL `https://example.com`, for the href
shapes used in the concrete examples below: absolute references
(`http:`, `https:`, `javascript:`, `mailto:`) pass through unchanged; a
fragment reference is attached to the base; a relative path is joined
to the base's root. -/
def resolveAgainstExample (href : String) : Option String :=
  if strStartsWith href "javascript:" || strStartsWith href "mailto:" then
    some href
  else if strStartsWith href "#" then some ("https://example.com" ++ href)
  else if strStartsWith href "http://" || strStartsWith href "https://" then
    some href
  else some ("https://example.com/" ++ href)

/-- A document whose single anchor has the bare-fragment href
`#section`. -/
def fragmentAnchorDoc : HtmlNode :=
  .mk .element "a" [⟨"href", "#section"⟩] .fnil

/-- A document with two anchors on `page3` (a duplicate) and one
`javascript:` anchor. -/
def samplePageDoc : HtmlNode :=
  .mk .element "html" []
    (.fcons (.mk .element "a" [⟨"href", "page3"⟩] .fnil)
      (.fcons (.mk .element "a" [⟨"href", "javascript:alert(1)"⟩] .fnil)
        (.fcons (.mk .element "a" [⟨"href", "page3"⟩] .fnil) .fnil)))

/-- Two concurrent downloads whose URLs end in the same final path
segment, overwrite disabled, empty directory. -/
def raceInit : SimState :=
  simInit 5 false []
    ["http://a.example/file.txt", "http://b.example/file.txt"]

theorem dedupInv_addIfNew {st : List String × List String} (m : String)
    (h : DedupInv st) : DedupInv (addIfNew st m) := by
  unfold addIfNew
  by_cases hm : m ∈ st.1
  · simpa [hm] using h
  · simp only [hm, if_neg, if_false]
    refine ⟨?_, ?_⟩
    · exact List.Nodup.append h.1 (List.nodup_singleton m)
        (by
          intro a ha hb
          rcases List.mem_singleton.mp hb with rfl
          exact hm (h.2 a ha))
    · intro x hx
      rcases List.mem_append.mp hx with hx | hx
      · exact List.mem_append.mpr (Or.inl (h.2 x hx))
      · exact List.mem_append.mpr (Or.inr hx)

theorem dedupInv_foldl (ms : List String) :
    ∀ st : List String × List String, DedupInv st →
      DedupInv (ms.foldl addIfNew st) := by
  induction ms with
  | nil => intro st h; simpa using h
  | cons m rest ih =>
    intro st h
    exact ih (addIfNew st m) (dedupInv_addIfNew m h)

theorem dedupInv_init : DedupInv (([] : List String), ([] : List String)) :=
  ⟨List.nodup_nil, by intro x hx; cases hx⟩

theorem removeDuplicateLinks_nodup (links : List String) :
    (removeDuplicateLinks links).Nodup :=
  (dedupInv_foldl links ([], []) dedupInv_init).1

theorem extractLinksFromText_nodup (content : String) :
    (extractLinksFromText content).Nodup :=
  (dedupInv_foldl (findAllURLs content) ([], []) dedupInv_init).1

theorem htmlInv_processHref (resolve : String → Option String)
    {s : ExtractState} (hrefVal : String) (h : HtmlInv s) :
    HtmlInv (processHref resolve s hrefVal) := by
  unfold processHref
  cases hres : resolve hrefVal with
  | none => exact ⟨h.1, h.2.1, h.2.2⟩
  | some urlStr =>
    by_cases hfil : strStartsWith urlStr "javascript:" ||
        strStartsWith urlStr "mailto:" || strStartsWith urlStr "#"
    · simpa [hfil] using h
    · simp only [hfil, if_false, Bool.false_eq_true]
      by_cases hv : urlStr ∈ s.visited
      · simpa [hv] using h
      · simp only [hv, if_neg, if_false]
        simp only [Bool.or_eq_true, not_or, Bool.not_eq_true] at hfil
        refine ⟨?_, ?_, ?_⟩
        · exact List.Nodup.append h.1 (List.nodup_singleton urlStr)
            (by
              intro a ha hb
              rcases List.mem_singleton.mp hb with rfl
              exact hv (h.2.1 a ha))
        · intro x hx
          rcases List.mem_append.mp hx with hx | hx
          · exact List.mem_append.mpr (Or.inl (h.2.1 x hx))
          · exact List.mem_append.mpr (Or.inr hx)
        · intro x hx
          rcases List.mem_append.mp hx with hx | hx
          · exact h.2.2 x hx
          · rcases List.mem_singleton.mp hx with rfl
            exact ⟨hfil.1.1, hfil.1.2, hfil.2⟩

theorem htmlInv_processAnchor (resolve : String → Option String)
    (ntype : NodeType) (data : String) (attrs : List HtmlAttr)
    {s : ExtractState} (h : HtmlInv s) :
    HtmlInv (processAnchor resolve ntype data attrs s) := by
  unfold processAnchor
  by_cases hc : ntype = NodeType.element ∧ data = "a"
  · simp only [hc, if_pos]
    clear hc
    induction attrs generalizing s with
    | nil => simpa using h
    | cons a rest ih =>
      by_cases hk : a.key = "href"
      · simp only [List.foldl_cons, hk, if_true, if_pos]
        exact ih (htmlInv_processHref resolve a.val h)
      · simp only [List.foldl_cons, hk, if_false, if_neg, not_false_iff]
        exact ih h
  · simpa [hc] using h

mutual

theorem htmlInv_traverseNode (resolve : String → Option String) :
    ∀ (n : HtmlNode) (s : ExtractState), HtmlInv s →
      HtmlInv (traverseNode resolve n s)
  | .mk ntype data attrs children, _, h =>
    htmlInv_traverseForest resolve children _
      (htmlInv_processAnchor resolve ntype data attrs h)

theorem htmlInv_traverseForest (resolve : String → Option String) :
    ∀ (f : HtmlForest) (s : ExtractState), HtmlInv s →
      HtmlInv (traverseForest resolve f s)
  | .fnil, _, h => h
  | .fcons n rest, s, h =>
    htmlInv_traverseForest resolve rest _ (htmlInv_traverseNode resolve n s h)

end

theorem htmlInv_init : HtmlInv ⟨[], [], []⟩ := by
  refine ⟨List.nodup_nil, ?_, ?_⟩ <;> intro x hx <;> cases hx

theorem extractLinksFromHTML_inv (resolve : String → Option String)
    (doc : HtmlNode) :
    ((extractLinksFromHTML resolve doc).1).Nodup ∧
    ∀ x ∈ (extractLinksFromHTML resolve doc).1,
      strStartsWith x "javascript:" = false ∧
      strStartsWith x "mailto:" = false ∧ strStartsWith x "#" = false := by
  have h := htmlInv_traverseNode resolve doc ⟨[], [], []⟩ htmlInv_init
  exact ⟨h.1, h.2.2⟩

mutual

theorem dedupInv_jsonExtract :
    ∀ (v : JsonValue) (st : List String × List String), DedupInv st →
      DedupInv (jsonExtract v st)
  | .str s, st, h => dedupInv_foldl (findAllURLs s) st h
  | .obj fs, st, h => dedupInv_jsonExtractFields fs st h
  | .arr its, st, h => dedupInv_jsonExtractItems its st h
  | .scalar, _, h => h

theorem dedupInv_jsonExtractFields :
    ∀ (fs : JsonFields) (st : List String × List String), DedupInv st →
      DedupInv (jsonExtractFields fs st)
  | .fnil, _, h => h
  | .fcons _ v rest, st, h =>
    dedupInv_jsonExtractFields rest _ (dedupInv_jsonExtract v st h)

theorem dedupInv_jsonExtractItems :
    ∀ (its : JsonItems) (st : List String × List String), DedupInv st →
      DedupInv (jsonExtractItems its st)
  | .inil, _, h => h
  | .icons v rest, st, h =>
    dedupInv_jsonExtractItems rest _ (dedupInv_jsonExtract v st h)

end

theorem extractLinksFromJSON_nodup (v : JsonValue) :
    (extractLinksFromJSON v).Nodup :=
  (dedupInv_jsonExtract v ([], []) dedupInv_init).1

theorem downloadFilesLoop_spec (jobs : List (String × Bool)) :
    ∀ attempted failed,
      downloadFilesLoop jobs attempted failed =
        (attempted ++ jobs.map Prod.fst, failed + failCount jobs) := by
  induction jobs with
  | nil => intro attempted failed; simp [downloadFilesLoop, failCount]
  | cons j rest ih =>
    intro attempted failed
    obtain ⟨u, ok⟩ := j
    cases ok with
    | true => simp [downloadFilesLoop, failCount, ih, List.filter]
    | false =>
      simp only [downloadFilesLoop, if_neg, Bool.false_eq_true, if_false, ih]
      refine Prod.ext ?_ ?_
      · simp
      · simp only [failCount, List.filter, Bool.not_false, List.length_cons]
        omega

theorem countP_set {α : Type} (p : α → Bool) :
    ∀ (l : List α) (i : Nat) (a b : α), l.get? i = some b →
      (l.set i a).countP p + (if p b then 1 else 0) =
        l.countP p + (if p a then 1 else 0) := by
  intro l
  induction l with
  | nil => intro i a b h; simp [List.get?] at h
  | cons x xs ih =>
    intro i a b h
    cases i with
    | zero =>
      simp only [List.get?] at h
      injection h with h
      subst h
      simp only [List.set, List.countP_cons]
      omega
    | succ j =>
      simp only [List.get?] at h
      simp only [List.set, List.countP_cons]
      have := ih j a b h
      omega

theorem semInv_step {c : Nat} {s s' : SimState} (h : SemInv c s)
    (hstep : SimStep s s') : SemInv c s' := by
  obtain ⟨h1, h2, h3⟩ := h
  cases hstep with
  | acquire i hw hsem =>
    have hc := countP_set isInFlight s.workers i .waitLock _ hw
    simp [isInFlight] at hc
    dsimp only [SemInv, inFlight] at h1 h2 ⊢
    exact ⟨by omega, by omega, h3⟩
  | lock i u hw hu hm =>
    have hc := countP_set isInFlight s.workers i
      (.locked (pickFilename s.overwrite s.diskNames (filepathBase u))) _ hw
    simp [isInFlight] at hc
    dsimp only [SemInv, inFlight] at h1 h2 ⊢
    exact ⟨by omega, by omega, h3⟩
  | unlock i n hw hm =>
    have hc := countP_set isInFlight s.workers i (.named n) _ hw
    simp [isInFlight] at hc
    dsimp only [SemInv, inFlight] at h1 h2 ⊢
    exact ⟨by omega, by omega, h3⟩
  | httpFail i n hw =>
    have hc := countP_set isInFlight s.workers i .doneErr _ hw
    simp [isInFlight] at hc
    dsimp only [SemInv, inFlight] at h1 h2 ⊢
    exact ⟨by omega, by omega, h3⟩
  | create i n hw =>
    have hc := countP_set isInFlight s.workers i (.writing n) _ hw
    simp [isInFlight] at hc
    dsimp only [SemInv, inFlight] at h1 h2 ⊢
    exact ⟨by omega, by omega, h3⟩
  | finishOk i n hw =>
    have hc := countP_set isInFlight s.workers i (.doneOk n) _ hw
    simp [isInFlight] at hc
    dsimp only [SemInv, inFlight] at h1 h2 ⊢
    exact ⟨by omega, by omega, h3⟩
  | writeFail i n hw =>
    have hc := countP_set isInFlight s.workers i .doneErr _ hw
    simp [isInFlight] at hc
    dsimp only [SemInv, inFlight] at h1 h2 ⊢
    exact ⟨by omega, by omega, h3⟩

theorem semInv_reach {s₀ s : SimState} (h : SemInv s₀.cap s₀)
    (hr : Relation.ReflTransGen SimStep s₀ s) : SemInv s₀.cap s := by
  induction hr with
  | refl => exact h
  | tail _ hstep ih => exact semInv_step ih hstep

theorem inFlight_simInit (cap : Nat) (overwrite : Bool)
    (diskNames urls : List String) :
    inFlight (simInit cap overwrite diskNames urls) = 0 := by
  simp only [inFlight, simInit]
  induction urls with
  | nil => rfl
  | cons u rest ih => simp [List.countP_cons, isInFlight, ih]

theorem listIsPre_append_self (p t : List Char) :
    listIsPre p (p ++ t) = true := by
  induction p with
  | nil => rfl
  | cons a as ih => simp [listIsPre, ih]

theorem splitOnChar_not_mem {sep : Char} {a : List Char} (h : sep ∉ a) :
    splitOnChar sep a = [a] := by
  induction a with
  | nil => rfl
  | cons c rest ih =>
    have hc : ¬ c = sep := fun e => h (e ▸ List.mem_cons_self c rest)
    have hr : sep ∉ rest := fun e => h (List.mem_cons_of_mem c e)
    simp [splitOnChar, hc, ih hr]

theorem splitOnChar_append {sep : Char} {a : List Char} (b : List Char)
    (h : sep ∉ a) :
    splitOnChar sep (a ++ sep :: b) = a :: splitOnChar sep b := by
  induction a with
  | nil => simp [splitOnChar]
  | cons c rest ih =>
    have hc : ¬ c = sep := fun e => h (e ▸ List.mem_cons_self c rest)
    have hr : sep ∉ rest := fun e => h (List.mem_cons_of_mem c e)
    simp only [List.cons_append, splitOnChar, hc, if_neg, if_false,
      List.append_eq]
    rw [ih hr]

theorem trimSuffixGit_append (cs : List Char) :
    trimSuffixGit (cs ++ ".git".data) = cs := by
  unfold trimSuffixGit
  rw [List.reverse_append]
  rw [show (".git".data).reverse = ['t', 'i', 'g', '.'] from rfl]
  rw [if_pos (listIsPre_append_self _ _)]
  rw [show (4 : Nat) = (['t', 'i', 'g', '.'] : List Char).length from rfl]
  rw [List.drop_left, List.reverse_reverse]

/-- C1: every link list produced by an extraction call — the HTML
traversal, the JSON walk, `removeDuplicateLinks`, the plain-text branch,
and any successful result of `ExtractLinksFromURL` or
`ExtractLinksFromFile` — contains no duplicate strings, duplication
judged by exact string equality. -/
theorem claim1_extraction_no_duplicates :
    (∀ (resolve : String → Option String) (doc : HtmlNode),
      ((extractLinksFromHTML resolve doc).1).Nodup) ∧
    (∀ v : JsonValue, (extractLinksFromJSON v).Nodup) ∧
    (∀ links : List String, (removeDuplicateLinks links).Nodup) ∧
    (∀ content : String, (extractLinksFromText content).Nodup) ∧
    (∀ (resolve : String → Option String) (resp : PageResponse)
        (links : List String),
      extractLinksFromURL resolve resp = .ok links → links.Nodup) ∧
    (∀ (resolve : String → Option String) (f : ModelFile)
        (links : List String),
      (extractLinksFromFile resolve f).2 = .ok links → links.Nodup) := by
  refine ⟨fun resolve doc => (extractLinksFromHTML_inv resolve doc).1,
    extractLinksFromJSON_nodup, removeDuplicateLinks_nodup,
    extractLinksFromText_nodup, ?_, ?_⟩
  · intro resolve resp links h
    unfold extractLinksFromURL at h
    repeat' split at h
    all_goals
      first
        | (simp only [Except.ok.injEq] at h; subst h;
           exact removeDuplicateLinks_nodup _)
        | exact absurd h (by simp)
  · intro resolve f links h
    unfold extractLinksFromFile at h
    by_cases hs : f.size > 10 * 1024 * 1024
    · rw [if_pos hs] at h
      exact absurd h (by simp)
    · rw [if_neg hs] at h
      dsimp only at h
      cases hb : f.body with
      | htmlBody doc =>
        rw [hb] at h
        simp only [Except.ok.injEq] at h
        subst h
        exact (extractLinksFromHTML_inv resolve doc).1
      | jsonBody p =>
        rw [hb] at h
        cases p with
        | none => exact absurd h (by simp)
        | some j =>
          simp only [Except.ok.injEq] at h
          subst h
          exact extractLinksFromJSON_nodup j
      | plainBody t =>
        rw [hb] at h
        simp only [Except.ok.injEq] at h
        subst h
        exact extractLinksFromText_nodup t
      | otherBody =>
        rw [hb] at h
        exact absurd h (by simp)

/-- C1 witness: concrete runs of both entry points — an HTML page with
a duplicated relative href, and a plain-text file with two URLs — give
duplicate-free link lists, the duplicate-freeness obtained from the C1
theorem. -/
theorem claim1_witness :
    extractLinksFromURL resolveAgainstExample
        ⟨200, "text/html", none, samplePageDoc⟩ =
      .ok ["https://example.com/page3"] ∧
    (["https://example.com/page3"] : List String).Nodup ∧
    (extractLinksFromFile resolveAgainstExample
        ⟨100, .plainBody "see https://a.b/c and http://d.e"⟩).2 =
      .ok ["https://a.b/c", "http://d.e"] ∧
    (["https://a.b/c", "http://d.e"] : List String).Nodup := by
  refine ⟨rfl, ?_, rfl, ?_⟩
  · exact claim1_extraction_no_duplicates.2.2.2.2.1 resolveAgainstExample
      ⟨200, "text/html", none, samplePageDoc⟩ _ rfl
  · exact claim1_extraction_no_duplicates.2.2.2.2.2 resolveAgainstExample
      ⟨100, .plainBody "see https://a.b/c and http://d.e"⟩ _ rfl

/-- C2 counterexample: the anchor of `fragmentAnchorDoc` has the
bare-fragment href `#section`, yet HTML extraction returns a link for it
— the prefix filter runs on the RESOLVED string, and resolving `#section`
against the absolute base `https://example.com` yields
`https://example.com#section`, which does not start with `#`.  So an
anchor whose href begins with `#` does appear (in resolved form) in the
link list, contrary to the claim. -/
theorem claim2_counterexample :
    strStartsWith "#section" "#" = true ∧
    (extractLinksFromHTML resolveAgainstExample fragmentAnchorDoc).1 =
      ["https://example.com#section"] :=
  ⟨rfl, by decide⟩

/-- C2 (amended): no string in the link list returned by HTML extraction
begins with `javascript:`, `mailto:` or `#`.  In particular anchors
whose hrefs are absolute `javascript:`/`mailto:` references are dropped
(resolution returns them unchanged, so the filter catches them), but a
bare-fragment href is resolved to an absolute URL first and that
resolved link is kept. -/
theorem claim2_no_filtered_prefix_in_output
    (resolve : String → Option String) (doc : HtmlNode) (l : String)
    (hl : l ∈ (extractLinksFromHTML resolve doc).1) :
    strStartsWith l "javascript:" = false ∧
    strStartsWith l "mailto:" = false ∧ strStartsWith l "#" = false :=
  (extractLinksFromHTML_inv resolve doc).2 l hl

/-- C2 witness: the one link extracted from `samplePageDoc` (whose
`javascript:` anchor was filtered out) starts with none of the three
filtered prefixes. -/
theorem claim2_witness :
    "https://example.com/page3" ∈
      (extractLinksFromHTML resolveAgainstExample samplePageDoc).1 ∧
    strStartsWith "https://example.com/page3" "javascript:" = false ∧
    strStartsWith "https://example.com/page3" "mailto:" = false ∧
    strStartsWith "https://example.com/page3" "#" = false := by
  have hm : "https://example.com/page3" ∈
      (extractLinksFromHTML resolveAgainstExample samplePageDoc).1 := by
    decide
  exact ⟨hm, claim2_no_filtered_prefix_in_output resolveAgainstExample
    samplePageDoc _ hm⟩

/-- C7: a file whose reported size exceeds the 10 MB ceiling is rejected
by `ExtractLinksFromFile` after the `stat` alone — the file is never
opened or read (the outcome is independent of the file's content) — with
the error whose message names the 10MB ceiling. -/
theorem claim7_oversized_file_rejected_before_read
    (resolve : String → Option String) (f : ModelFile)
    (h : f.size > 10 * 1024 * 1024) :
    extractLinksFromFile resolve f =
      ([.statEff], .error (.fileTooLarge f.size)) ∧
    (∀ b : FileBody,
      extractLinksFromFile resolve { size := f.size, body := b } =
        extractLinksFromFile resolve f) ∧
    strContains (extractErrorText (.fileTooLarge f.size)) "10MB" = true := by
  have hmain : ∀ b : FileBody,
      extractLinksFromFile resolve { size := f.size, body := b } =
        ([.statEff], .error (.fileTooLarge f.size)) := by
    intro b
    dsimp only [extractLinksFromFile]
    rw [if_pos h]
  refine ⟨hmain f.body, fun b => (hmain b).trans (hmain f.body).symm, ?_⟩
  exact rfl

/-- C7 witness: a file one byte over the ceiling is rejected with only
the `stat` performed. -/
theorem claim7_witness :
    (10485761 : Nat) > 10 * 1024 * 1024 ∧
    extractLinksFromFile resolveAgainstExample ⟨10485761, .otherBody⟩ =
      ([.statEff], .error (.fileTooLarge 10485761)) :=
  ⟨by decide, (claim7_oversized_file_rejected_before_read
      resolveAgainstExample ⟨10485761, .otherBody⟩ (by decide)).1⟩

/-- C3: the race the mutex of `DownloadFilesSimultaneously` fails to
close.  The existence check and the choice of the fallback name happen
under the mutex, but the chosen name is NOT reserved (created) before
the lock is released — `os.Create` runs after `mu.Unlock()`.  In this
reachable interleaving of two workers whose URLs both derive
`file.txt` (overwrite disabled, empty directory), both workers pass the
critical section before either creates the file, both choose the name
`file.txt`, both create and write it, and both report success on the
SAME final filename, with a single file on disk — contradicting the
claim that the reservation is atomic and the two workers end up with
distinct files. -/
theorem claim3_duplicate_filename_race :
    ∃ s : SimState,
      Relation.ReflTransGen SimStep raceInit s ∧
      s.workers = [.doneOk "file.txt", .doneOk "file.txt"] ∧
      s.diskNames = ["file.txt"] := by
  refine ⟨_, Relation.ReflTransGen.head
      (SimStep.acquire raceInit 0 rfl (by decide))
      (.head (SimStep.acquire _ 1 rfl (by decide))
      (.head (SimStep.lock _ 0 "http://a.example/file.txt" rfl rfl rfl)
      (.head (SimStep.unlock _ 0 "file.txt" rfl rfl)
      (.head (SimStep.lock _ 1 "http://b.example/file.txt" rfl rfl rfl)
      (.head (SimStep.unlock _ 1 "file.txt" rfl rfl)
      (.head (SimStep.create _ 0 "file.txt" rfl)
      (.head (SimStep.create _ 1 "file.txt" rfl)
      (.head (SimStep.finishOk _ 0 "file.txt" rfl)
      (.head (SimStep.finishOk _ 1 "file.txt" rfl)
      .refl))))))))), rfl, rfl⟩

/-- C4: in every run of the concurrent engine started from its initial
state with ceiling `cap`, every reachable state has at most `cap`
downloads in flight — a worker is in flight from its semaphore
acquisition (before the HTTP request) until its exit after the file
write; and the default ceiling is 5. -/
theorem claim4_semaphore_bounds_in_flight (cap : Nat) (overwrite : Bool)
    (diskNames urls : List String) (s : SimState)
    (hr : Relation.ReflTransGen SimStep
      (simInit cap overwrite diskNames urls) s) :
    inFlight s ≤ cap ∧ maxConcurrentDownloadsDefault = 5 := by
  have h0 : SemInv (simInit cap overwrite diskNames urls).cap
      (simInit cap overwrite diskNames urls) :=
    ⟨(inFlight_simInit cap overwrite diskNames urls).symm, Nat.zero_le _, rfl⟩
  obtain ⟨ha, hb, hc⟩ := semInv_reach h0 hr
  have hcap : (simInit cap overwrite diskNames urls).cap = cap := rfl
  refine ⟨?_, rfl⟩
  omega

/-- C4 witness: the bound holds at the (trivially reachable) initial
state of a one-URL batch with ceiling 1. -/
theorem claim4_witness :
    inFlight (simInit 1 false [] ["http://e.com/a"]) ≤ 1 ∧
    maxConcurrentDownloadsDefault = 5 :=
  claim4_semaphore_bounds_in_flight 1 false [] ["http://e.com/a"] _
    Relation.ReflTransGen.refl

/-- C5: on a non-empty URL list, sequential `DownloadFiles` attempts
every URL in input order (failures never stop the loop), returns the
aggregate failed/total error exactly when the failure count is positive,
and succeeds exactly when it is zero. -/
theorem claim5_sequential_batch_aggregate (jobs : List (String × Bool))
    (h : jobs ≠ []) :
    (downloadFiles jobs).1 = jobs.map Prod.fst ∧
    ((downloadFiles jobs).2 =
        .error (.aggregate (failCount jobs) jobs.length) ↔
      0 < failCount jobs) ∧
    ((downloadFiles jobs).2 = .ok () ↔ failCount jobs = 0) := by
  have hlen : ¬ jobs.length = 0 := by
    simpa using h
  have hd : downloadFiles jobs =
      (jobs.map Prod.fst,
        if 0 < failCount jobs then
          .error (.aggregate (failCount jobs) jobs.length) else .ok ()) := by
    unfold downloadFiles
    rw [if_neg hlen, downloadFilesLoop_spec]
    simp
  rw [hd]
  by_cases hf : 0 < failCount jobs
  · rw [if_pos hf]
    refine ⟨rfl, ⟨fun _ => hf, fun _ => rfl⟩,
      ⟨fun hok => absurd hok (by simp), fun hz => by omega⟩⟩
  · rw [if_neg hf]
    refine ⟨rfl, ⟨fun he => absurd he (by simp), fun hp => absurd hp hf⟩,
      ⟨fun _ => by omega, fun _ => rfl⟩⟩

/-- C5 witness: a two-URL batch with one failure attempts both URLs in
order and reports 1 of 2 failed. -/
theorem claim5_witness :
    ([("http://a", false), ("http://b", true)] : List (String × Bool)) ≠ [] ∧
    (downloadFiles [("http://a", false), ("http://b", true)]).1 =
      ["http://a", "http://b"] ∧
    (downloadFiles [("http://a", false), ("http://b", true)]).2 =
      .error (.aggregate 1 2) := by
  have h := claim5_sequential_batch_aggregate
    [("http://a", false), ("http://b", true)] (by decide)
  exact ⟨by decide, h.1, h.2.1.mpr (by decide)⟩

/-- C6 counterexample: the concurrent path's inline download accepts a
response whose declared content length (2 GiB) exceeds the 1 GB ceiling
and writes the file without any error — so the content-length rejection
is NOT shared by both modes. -/
theorem claim6_counterexample :
    (2147483648 : Int) > 1024 * 1024 * 1000 ∧
    simWorkerDownload (some ⟨200, 2147483648, ['x']⟩) true true "big.bin" [] =
      ([("big.bin", ['x'])], none) :=
  ⟨by decide, rfl⟩

/-- C6 (amended): sequential `DownloadFile` rejects, before creating any
file and leaving the directory unchanged, every 2xx response whose
declared content length exceeds `1024*1024*1000` bytes; the concurrent
worker's inline download performs no content-length check at all — its
outcome is independent of the declared content length. -/
theorem claim6_size_check_sequential_only :
    (∀ (allowOverwrite : Bool) (url : String) (r : HttpResponse)
        (createOk writeOk : Bool) (fs : ModelFS),
      200 ≤ r.status → r.status < 300 →
      r.contentLength > 1024 * 1024 * 1000 →
      downloadFile allowOverwrite url (some r) createOk writeOk fs =
        (fs, .error (.tooLarge r.contentLength))) ∧
    (∀ (r : HttpResponse) (x : Int) (createOk writeOk : Bool)
        (filename : String) (fs : ModelFS),
      simWorkerDownload (some { r with contentLength := x }) createOk
          writeOk filename fs =
        simWorkerDownload (some r) createOk writeOk filename fs) := by
  constructor
  · intro ao url r c w fs h1 h2 h3
    simp only [downloadFile]
    rw [if_neg (by omega), if_pos h3]
  · intro r x c w n fs
    rfl

/-- C6 witness: a 2xx response declaring exactly 1 GiB (which exceeds
the `1024*1024*1000` threshold) is rejected by the sequential path with
the directory untouched. -/
theorem claim6_witness :
    (200 : Nat) ≤ 200 ∧ (200 : Nat) < 300 ∧
    (1073741824 : Int) > 1024 * 1024 * 1000 ∧
    downloadFile false "http://e.com/big.bin" (some ⟨200, 1073741824, []⟩)
        true true [] =
      ([], .error (.tooLarge 1073741824)) :=
  ⟨by decide, by decide, by decide,
    claim6_size_check_sequential_only.1 false "http://e.com/big.bin"
      ⟨200, 1073741824, []⟩ true true [] (by decide) (by decide) (by decide)⟩

/-- C8 counterexample: for the GitHub URL
`https://github.com//owner/repo` (path `//owner/repo`), the code returns
owner `""` and repo `owner` — the first two components of the slash
split, the first of which is EMPTY — while the first two non-empty path
segments are `owner` and `repo`. -/
theorem claim8_counterexample :
    githubParseOwnerRepo ("//owner/repo".data) =
      .ok ("".data, "owner".data) ∧
    specNonEmptySegments ("//owner/repo".data) =
      ["owner".data, "repo".data] :=
  ⟨rfl, by decide⟩

/-- C8 (amended): `FetchGitHubReleases` takes owner and repo as the
first two components of the URL path split on `/` after trimming one
leading slash — components that may be empty, not the first two
non-empty segments — strips a trailing `.git` from the repo component,
and fails with the invalid-URL error whenever the split has fewer than
two components. -/
theorem claim8_first_two_split_components (owner repo : List Char)
    (how : '/' ∉ owner) (hrep : '/' ∉ repo) :
    githubParseOwnerRepo ('/' :: (owner ++ '/' :: repo)) =
      .ok (owner, trimSuffixGit repo) ∧
    (∀ seg : List Char, '/' ∉ seg →
      githubParseOwnerRepo ('/' :: seg) = .error .invalidRepoURL) ∧
    (∀ cs : List Char, trimSuffixGit (cs ++ ".git".data) = cs) := by
  refine ⟨?_, ?_, trimSuffixGit_append⟩
  · simp only [githubParseOwnerRepo]
    rw [if_pos (show listIsPre ['/']
        ('/' :: (owner ++ '/' :: repo)) = true by simp [listIsPre])]
    simp only [List.drop_succ_cons, List.drop_zero]
    rw [splitOnChar_append repo how, splitOnChar_not_mem hrep]
  · intro seg hseg
    simp only [githubParseOwnerRepo]
    rw [if_pos (show listIsPre ['/'] ('/' :: seg) = true by
      simp [listIsPre])]
    simp only [List.drop_succ_cons, List.drop_zero]
    rw [splitOnChar_not_mem hseg]

/-- C8 witness: the real repository URL path `/hemzaz/lsweb.git` parses
to owner `hemzaz` and repo `lsweb` with the `.git` suffix stripped. -/
theorem claim8_witness :
    ('/' ∉ "hemzaz".data) ∧ ('/' ∉ "lsweb.git".data) ∧
    githubParseOwnerRepo ("/hemzaz/lsweb.git".data) =
      .ok ("hemzaz".data, "lsweb".data) := by
  refine ⟨by decide, by decide, ?_⟩
  exact (claim8_first_two_split_components "hemzaz".data "lsweb.git".data
    (by decide) (by decide)).1

/-- C9: with overwrite disabled and a file of the derived name already
present, sequential `DownloadFile` (on an otherwise successful 2xx,
size-acceptable response) returns the explicit already-exists error and
leaves the directory — in particular the existing file's contents —
unchanged. -/
theorem claim9_sequential_existing_file_untouched (url : String)
    (r : HttpResponse) (createOk writeOk : Bool) (fs : ModelFS)
    (h1 : 200 ≤ r.status) (h2 : r.status < 300)
    (h3 : r.contentLength ≤ 1024 * 1024 * 1000)
    (h4 : fsExists fs (filepathBase url) = true) :
    downloadFile false url (some r) createOk writeOk fs =
      (fs, .error (.alreadyExists (filepathBase url))) := by
  simp only [downloadFile]
  rw [if_neg (by omega), if_neg (by omega)]
  rw [if_pos (by simp [h4])]

/-- C9 witness: downloading `http://e.com/a.txt` into a directory that
already holds `a.txt` fails with the already-exists error and leaves the
directory unchanged. -/
theorem claim9_witness :
    fsExists [("a.txt", [])] (filepathBase "http://e.com/a.txt") = true ∧
    downloadFile false "http://e.com/a.txt" (some ⟨200, 0, ['y']⟩) true true
        [("a.txt", [])] =
      ([("a.txt", [])], .error (.alreadyExists "a.txt")) := by
  refine ⟨by decide, ?_⟩
  exact claim9_sequential_existing_file_untouched "http://e.com/a.txt"
    ⟨200, 0, ['y']⟩ true true [("a.txt", [])] (by decide) (by decide)
    (by decide) (by decide)

/-- C10: both batch entry points reject the empty URL list with the
no-URLs error before doing anything else — sequential mode attempts no
URL, and concurrent mode never constructs its worker system. -/
theorem claim10_empty_batch_rejected :
    downloadFiles [] = ([], .error .noURLs) ∧
    ∀ (cap : Nat) (overwrite : Bool) (diskNames : List String),
      downloadFilesSimultaneously cap overwrite diskNames [] =
        .error .noURLs :=
  ⟨rfl, fun _ _ _ => rfl⟩

end LswebModel
